import Mathlib

/-!
Verification development for the RAG toolkit repository (vector index
lifecycle, retrieval engine, tool registry and tool-call dispatch loop).

Shallow embedding conventions:
- Python JSON-like values (dicts, lists, strings, ints, bools) are the
  inductive type `J`; Python dicts are association lists keyed by `String`.
- Floating point similarity scores are modelled as rationals.
- Machinery that can raise in Python is modelled with `Except String`.
- External collaborators (the sentence-transformer encoder, the faiss
  index scan, the PDF extractor) enter as explicit environment records;
  the code under verification is translated statement by statement.
-/

/-- JSON-like values as produced and consumed by the Python code
(strings, integers, booleans, arrays, objects, and None). Python dicts
are modelled as insertion-ordered association lists. -/
inductive J : Type where
  | s (v : String)
  | i (v : Int)
  | b (v : Bool)
  | arr (vs : List J)
  | obj (kvs : List (String × J))
  | null

/-- Python truthiness of a `J` value, as used by `if param_def.get(...)`. -/
def jTruthy : J → Bool
  | J.s v => v ≠ ""
  | J.i v => v ≠ 0
  | J.b v => v
  | J.arr vs => !vs.isEmpty
  | J.obj kvs => !kvs.isEmpty
  | J.null => false

/-- Python `d.get(k, default)` over an association-list dict: the first
binding of the key, else the default. -/
def objGetD (kvs : List (String × J)) (k : String) (d : J) : J :=
  match kvs with
  | [] => d
  | kv :: rest => if kv.1 = k then kv.2 else objGetD rest k d

/-- Python `k in d` membership test over an association-list dict. -/
def keyMem (kvs : List (String × J)) (k : String) : Bool :=
  match kvs with
  | [] => false
  | kv :: rest => if kv.1 = k then true else keyMem rest k

/-- Python `d[k] = v`: replace the first binding of `k`, or append. -/
def objSet (kvs : List (String × J)) (k : String) (v : J) : List (String × J) :=
  if keyMem kvs k then
    kvs.map (fun kv => if kv.1 = k then (k, v) else kv)
  else kvs ++ [(k, v)]

/-- The parameter schema of the Retrieval tool, verbatim from its
constructor defaults in `src/tools/retrieval.py`. -/
def retrievalParams : List (String × J) :=
  [("query", J.obj [("type", J.s "string"),
                    ("description", J.s "Search query string"),
                    ("required", J.b true)]),
   ("reference_entries", J.obj [("type", J.s "integer"),
                                ("description", J.s "number of reference sentences returned"),
                                ("required", J.b false)])]

/-- The parameter schema of the Match tool, verbatim from its constructor
defaults in `src/tools/match.py`. -/
def matchParams : List (String × J) :=
  [("key word", J.obj [("type", J.s "string"),
                       ("description", J.s "Query string of categories"),
                       ("required", J.b true)]),
   ("categories", J.obj [("type", J.s "string"),
                         ("enum", J.arr [J.s "company", J.s "rating", J.s "location",
                                         J.s "positionName", J.s "description",
                                         J.s "salary", J.s "jobType"]),
                         ("description", J.s "Categories of key word, \x27full-time\x27 and \x27Contract\x27 are the only two values of jobType, rating must be numerical"),
                         ("required", J.b true)])]

/-- Python `param_def.get("required", False)` on a property dict, used in
a boolean position. -/
def reqFlag (v : J) : Bool :=
  match v with
  | J.obj kvs => jTruthy (objGetD kvs "required" (J.b false))
  | _ => false

/-- The list of required parameter names a tool finds missing from the
call arguments: the validation loop shared verbatim by `Retrieval.call`
and `Match.call`. -/
def missingParams (schema : List (String × J)) (args : List (String × J)) : List String :=
  (schema.filter (fun nd => reqFlag nd.2 && !(keyMem args nd.1))).map Prod.fst

/-- The structured MissingParameters error object built by `call`. -/
def mpErrorObj (missing : List String) : J :=
  J.obj [("error", J.s "MissingParameters"),
         ("message", J.s ("Missing required parameters: " ++ String.intercalate ", " missing)),
         ("status", J.s "error")]

/-- The `call` method shared (textually identically) by the Retrieval and
Match tools: validate required parameters, then delegate to the
underlying execute and wrap its result under a success status. A raised
fault inside the execute is propagated, hence the `Except`. -/
def callT (schema : List (String × J)) (exec : List (String × J) → Except String J)
    (args : List (String × J)) : Except String J :=
  let missing := missingParams schema args
  if missing.isEmpty then
    (exec args).map (fun r => J.obj [("result", r), ("status", J.s "success")])
  else
    Except.ok (mpErrorObj missing)

/-! ## The Retrieval tool body (`Retrieval._execute`) -/

/-- External environment of the Retrieval tool: the PDF-derived knowledge
base built by `create_pdfkb`, and the faiss scan
`index.search(model.encode([query]), k)` returning distance/label pairs
(the sentence-transformer encoder and the flat L2 index are collapsed
into one oracle, since only their output reaches the tool logic). -/
structure RetrievalEnv where
  kb_data : List String
  searchRes : String → Int → List (ℚ × Int)

/-- Python `str.lower()` (ASCII-faithful), mapped over the characters. -/
def pyLower (s : String) : String := String.mk (s.data.map Char.toLower)

/-- Python `x == 0` for a JSON value (0, 0-valued bool compare equal). -/
def jEqZero : J → Bool
  | J.i n => n = 0
  | J.b bb => !bb
  | _ => false

/-- Coerce a JSON value to an int where Python would (bools are ints);
anything else raises a TypeError at the arithmetic use site. -/
def jToInt : J → Except String Int
  | J.i n => Except.ok n
  | J.b bb => Except.ok (if bb then 1 else 0)
  | _ => Except.error "TypeError"

/-- Python list indexing `l[i]` with negative-index wraparound and
IndexError on out-of-range. -/
def pyIndex (l : List String) (i : Int) : Except String String :=
  let k : Int := if i < 0 then (l.length : Int) + i else i
  if 0 ≤ k ∧ k.toNat < l.length then Except.ok (l.getD k.toNat "")
  else Except.error "IndexError"

/-- Python slice `l[:n]`, including the negative-bound case. -/
def pySlice {α : Type} (l : List α) (n : Int) : List α :=
  if 0 ≤ n then l.take n.toNat else l.take (l.length - (-n).toNat)

/-- Body of `Retrieval._execute` as a function of the two dictionary
reads it performs (`parameters.get("query", "")` and
`parameters.get("reference_entry", 3)`) and the environment. Mirrors the
source order: lowercase the query (AttributeError on a non-string),
default and zero-correct `max_results`, early-return on a falsy query,
then scan, sort by relevance descending, truncate, and project away the
relevance field. -/
def rexecCore (qv mrJ : J) (env : RetrievalEnv) : Except String J :=
  match qv with
  | J.s q0 =>
    let query := pyLower q0
    let mrJ2 := if jEqZero mrJ then J.i 3 else mrJ
    if query = "" then
      Except.ok (J.obj [("error", J.s "Query is required")])
    else do
      let mr ← jToInt mrJ2
      let pairs := env.searchRes query (mr + 2)
      let results ← pairs.mapM (fun di => (pyIndex env.kb_data di.2).map (fun c => (c, di.1)))
      let sorted := results.insertionSort (fun a b => b.2 ≤ a.2)
      let trimmed := pySlice sorted mr
      Except.ok (J.arr (trimmed.map (fun cr => J.obj [("content", J.s cr.1)])))
  | _ => Except.error "AttributeError"

/-- `Retrieval._execute(parameters)`: the tool body reads exactly the
keys `query` and `reference_entry` from its arguments. -/
def Retrieval.execute (env : RetrievalEnv) (args : List (String × J)) : Except String J :=
  rexecCore (objGetD args "query" (J.s "")) (objGetD args "reference_entry" (J.i 3)) env

/-- `Retrieval.call(parameters)`: required-parameter validation followed
by `_execute`, with the shared wrapper `callT`. -/
def Retrieval.call (env : RetrievalEnv) (args : List (String × J)) : Except String J :=
  callT retrievalParams (Retrieval.execute env) args

/-! ## Tool advertisement (`get_definition`, `remove_required_from_properties`) -/

/-- `get_definition()` as written identically in both tools: the
JSON-schema-like declaration with a top-level `required` array derived
from the per-property flags. -/
def get_definition (name description : String) (parameters : List (String × J)) : J :=
  J.obj [("type", J.s "function"),
         ("function", J.obj
           [("name", J.s name),
            ("description", J.s description),
            ("parameters", J.obj
              [("type", J.s "object"),
               ("properties", J.obj parameters),
               ("required", J.arr ((parameters.filter (fun nd => reqFlag nd.2)).map
                   (fun nd => J.s nd.1)))])])]

/-- Rewrite the value at key `k` of a JSON object through `f` (a no-op on
absent keys or non-objects), modelling the in-place nested-dict update. -/
def objModify (v : J) (k : String) (f : J → J) : J :=
  match v with
  | J.obj kvs => J.obj (kvs.map (fun kv => if kv.1 = k then (kv.1, f kv.2) else kv))
  | x => x

/-- `del prop["required"]` guarded by `if "required" in prop`. -/
def delRequired (v : J) : J :=
  match v with
  | J.obj kvs => J.obj (kvs.filter (fun kv => !(kv.1 == "required")))
  | x => x

/-- Apply `f` to every value of a JSON object. -/
def objMapVals (f : J → J) (v : J) : J :=
  match v with
  | J.obj kvs => J.obj (kvs.map (fun kv => (kv.1, f kv.2)))
  | x => x

/-- `remove_required_from_properties` from `src/tools/__init__.py`: deep
copy, then drop the per-property `required` markers from each advertised
declaration (the top-level `required` array is untouched). -/
def remove_required_from_properties (defs : List J) : List J :=
  defs.map (fun tool =>
    objModify tool "function" (fun fv =>
      objModify fv "parameters" (fun pv =>
        objModify pv "properties" (objMapVals delRequired))))

/-- `init_tools()`: the advertised declarations of the registry
(Retrieval then Match, the dict insertion order of `get_tools`). -/
def init_tools : List J :=
  remove_required_from_properties
    [get_definition "Retrieval" "Search the knowledge base" retrievalParams,
     get_definition "Match" "Match the key word" matchParams]

/-- Navigate one key into a JSON object (inspection helper for the
statements about advertised declarations). -/
def objGetJ (v : J) (k : String) : J :=
  match v with
  | J.obj kvs => objGetD kvs k J.null
  | _ => J.null

/-- The properties object of an advertised tool declaration. -/
def propsOf (d : J) : List (String × J) :=
  match objGetJ (objGetJ (objGetJ d "function") "parameters") "properties" with
  | J.obj kvs => kvs
  | _ => []

/-- The top-level required array of an advertised tool declaration. -/
def reqArrOf (d : J) : J :=
  objGetJ (objGetJ (objGetJ d "function") "parameters") "required"

/-- No property dict of the declaration carries a `required` key. -/
def propsNoRequired (d : J) : Bool :=
  (propsOf d).all (fun kv =>
    match kv.2 with
    | J.obj kvs2 => !(keyMem kvs2 "required")
    | _ => true)

/-! ## Tool-call dispatch (`process_tool_calls`) -/

/-- A tool call as emitted by the model; `args` is the parsed form of the
JSON-string `arguments` field. -/
structure TCall where
  id : String
  name : String
  args : List (String × J)

/-- A transcript message appended by the dispatcher; `content` carries
the structured result that `json.dumps` serializes. -/
structure Msg where
  role : String
  tool_call_id : String
  name : String
  content : J

/-- An entry of the `processed_calls` return list. -/
structure PCall where
  name : String
  parameters : List (String × J)
  result : J

/-- The tool registry built by `tools.get_tools()`: a name-keyed mapping
to the callable `call` methods. -/
abbrev Registry : Type := List (String × (List (String × J) → J))

/-- Python `name in tool_list` and `tool_list[name]` combined. -/
def lookupTool (reg : Registry) (n : String) : Option (List (String × J) → J) :=
  match reg with
  | [] => none
  | t :: rest => if t.1 = n then some t.2 else lookupTool rest n

/-- The structured error dict synthesized for an unregistered tool name
(the message wraps the name in single quotes, as the source f-string
does). -/
def toolNotFoundObj (n : String) : J :=
  J.obj [("error", J.s "ToolNotFound"),
         ("message", J.s ("Tool \x27" ++ n ++ "\x27 is not available")),
         ("status", J.s "error")]

/-- The transcript entry appended for an unregistered tool name. -/
def errEntry (c : TCall) : Msg :=
  ⟨"tool", c.id, c.name, toolNotFoundObj c.name⟩

/-- The transcript entry appended for a dispatched call result. -/
def okEntry (c : TCall) (result : J) : Msg :=
  ⟨"tool", c.id, c.name, result⟩

/-- `process_tool_calls(tool_calls, conversation_history)` from
`src/utils/toolscalls_process.py`: look each call up by name, invoke or
synthesize a ToolNotFound error, append a tool-role transcript entry
keyed to the call id, and keep going. -/
def process_tool_calls (reg : Registry) : List TCall → List Msg → List PCall × List Msg
  | [], hist => ([], hist)
  | c :: rest, hist =>
    match lookupTool reg c.name with
    | some tf =>
      let result := tf c.args
      let next := process_tool_calls reg rest (hist ++ [okEntry c result])
      (⟨c.name, c.args, result⟩ :: next.1, next.2)
    | none =>
      let next := process_tool_calls reg rest (hist ++ [errEntry c])
      (⟨c.name, c.args, toolNotFoundObj c.name⟩ :: next.1, next.2)

/-- The transcript entry produced for one call (ok or error), used to
state what the dispatch loop appends. -/
def entryFor (reg : Registry) (c : TCall) : Msg :=
  match lookupTool reg c.name with
  | some tf => okEntry c (tf c.args)
  | none => errEntry c

/-! ## Index store file operations (`delete_index`, `load_index`) -/

/-- State of one on-disk file for the delete model: absent, or present
and either removable or failing with an OSError on removal. -/
inductive FileD where
  | absentF
  | presentF (removable : Bool)
deriving DecidableEq

/-- The removal loop of `delete_index`: skip absent files, remove the
rest, abort to the except-clause on the first OSError. -/
def removeAll : List FileD → Bool
  | [] => true
  | FileD.absentF :: rest => removeAll rest
  | FileD.presentF true :: rest => removeAll rest
  | FileD.presentF false :: _ => false

/-- `VectorStore.delete_index`: iterate over the three artifact paths,
deleting those that exist; True unless a removal raised. -/
def VectorStore.delete_index (f1 f2 f3 : FileD) : Bool :=
  removeAll [f1, f2, f3]

/-- Outcome of reading one artifact file: missing on disk, unreadable
(the read raises), or successfully parsed content. -/
inductive FRead (α : Type) where
  | absent
  | failRead
  | okRead (a : α)
deriving DecidableEq

/-- A per-record metadata mapping. -/
abbrev MetaD : Type := List (String × String)

/-- The in-memory fields of a `VectorSearch` instance touched by
`load_index`; the opaque faiss index handle is a tag. -/
structure VSState where
  index : Option Nat
  index_path : Option String
  current_index_name : Option String
  kb_data : List String
  metadata : List MetaD
deriving DecidableEq

/-- The three on-disk files of one index artifact as seen by one
`load_index` call. -/
structure ArtifactFiles where
  indexF : FRead Nat
  textsF : FRead (List String)
  metaF : FRead (List MetaD)

/-- Tail of `load_index` after the texts block: `self.metadata = []`,
then read the metadata file if it exists (a raise is caught by the
enclosing try and yields False, with the reset already applied). -/
def loadMeta (files : ArtifactFiles) (st2 : VSState) : Bool × VSState :=
  match files.metaF with
  | FRead.absent => (true, {st2 with metadata := []})
  | FRead.failRead => (false, {st2 with metadata := []})
  | FRead.okRead m => (true, {st2 with metadata := m})

/-- `VectorSearch.load_index(index_name)`: False if the index file does
not exist; otherwise read the faiss index (assigning it and the path and
name fields), then texts, then metadata, with any raise caught and
turned into False after the assignments already made. -/
def VectorSearch.load_index (files : ArtifactFiles) (name : String) (st : VSState) :
    Bool × VSState :=
  match files.indexF with
  | FRead.absent => (false, st)
  | FRead.failRead => (false, st)
  | FRead.okRead ih =>
    let st1 : VSState :=
      {st with index := some ih, index_path := some name, current_index_name := some name}
    match files.textsF with
    | FRead.failRead => (false, st1)
    | FRead.absent => loadMeta files {st1 with kb_data := []}
    | FRead.okRead ts => loadMeta files {st1 with kb_data := ts}

/-! ## Retrieval engine (`VectorSearch.search`, metadata post-filter) -/

/-- Result ordering of the flat inner-product index: higher similarity
first, ties broken by ascending stored position (the determinism
convention the spec documents for the search primitive). -/
def pge (x y : ℚ × Nat) : Prop :=
  y.1 < x.1 ∨ (x.1 = y.1 ∧ x.2 ≤ y.2)

instance : DecidableRel pge := fun x y =>
  inferInstanceAs (Decidable (y.1 < x.1 ∨ (x.1 = y.1 ∧ x.2 ≤ y.2)))

instance : IsTotal (ℚ × Nat) pge where
  total x y := by
    rcases lt_trichotomy x.1 y.1 with h | h | h
    · exact Or.inr (Or.inl h)
    · rcases Nat.le_total x.2 y.2 with h2 | h2
      · exact Or.inl (Or.inr ⟨h, h2⟩)
      · exact Or.inr (Or.inr ⟨h.symm, h2⟩)
    · exact Or.inl (Or.inl h)

instance : IsTrans (ℚ × Nat) pge where
  trans x y z hxy hyz := by
    rcases hxy with h1 | ⟨e1, i1⟩
    · rcases hyz with h2 | ⟨e2, _⟩
      · exact Or.inl (h2.trans h1)
      · exact Or.inl (e2 ▸ h1)
    · rcases hyz with h2 | ⟨e2, i2⟩
      · exact Or.inl (e1 ▸ h2)
      · exact Or.inr ⟨e1.trans e2, i1.trans i2⟩

/-- Stored vectors paired with their positions, starting at `i`. -/
def withIdx : List ℚ → Nat → List (ℚ × Nat)
  | [], _ => []
  | s :: rest, i => (s, i) :: withIdx rest (i + 1)

/-- The faiss `IndexFlatIP.search` primitive over the per-position
similarity scores of the current query: the `k` best (similarity, label)
pairs in the documented order. -/
def faissTopK (scores : List ℚ) (k : Nat) : List (ℚ × Nat) :=
  (List.insertionSort pge (withIdx scores 0)).take k

/-- A loaded index as `VectorSearch` sees it: parallel texts and
metadata, and the composite of `model.encode` plus the stored normalized
vectors, exposed as the per-position inner-product scores of a query. -/
structure SearchIndex where
  kb_data : List String
  metadata : List MetaD
  score : String → List ℚ

/-- One search result dict: content, similarity, stable index, and the
metadata attached only when the position is covered by the metadata
list. -/
structure SearchResult where
  content : String
  similarity : ℚ
  index : Nat
  metadata : Option MetaD
deriving DecidableEq

/-- The result dict built inside the search loop for a candidate pair. -/
def mkResult (ix : SearchIndex) (p : ℚ × Nat) : SearchResult :=
  { content := ix.kb_data.getD p.2 "",
    similarity := p.1,
    index := p.2,
    metadata :=
      if p.2 < ix.metadata.length then some (ix.metadata.getD p.2 []) else none }

/-- `VectorSearch.search(query, top_k, threshold)`: take the `top_k`
candidates from the index scan and keep those with
`similarity >= threshold` and a position inside `kb_data`. -/
def VectorSearch.search (ix : SearchIndex) (query : String) (top_k : Nat)
    (threshold : ℚ) : List SearchResult :=
  ((faissTopK (ix.score query) top_k).filter
      (fun p => decide (threshold ≤ p.1) && decide (p.2 < ix.kb_data.length))).map
    (mkResult ix)

/-- First occurrence lookup in a metadata dict. -/
def assocGet (m : MetaD) (k : String) : Option String :=
  match m with
  | [] => none
  | kv :: rest => if kv.1 = k then some kv.2 else assocGet rest k

/-- The per-result filter test of `search_with_metadata_filter`: the
result must carry a metadata dict, and that dict must bind every filter
key to the filter value (an absent key excludes the record). -/
def matchesFilter (mf : List (String × String)) (r : SearchResult) : Bool :=
  match r.metadata with
  | none => false
  | some m => mf.all (fun kv => decide (assocGet m kv.1 = some kv.2))

/-- The collection loop of `search_with_metadata_filter`: append each
matching result and break once `top_k` have been collected (the break
fires after the append, so `need` counts how many are still wanted). -/
def collectLoop (p : SearchResult → Bool) (need : Nat) :
    List SearchResult → List SearchResult
  | [] => []
  | r :: rest =>
    if p r then
      if need ≤ 1 then [r] else r :: collectLoop p (need - 1) rest
    else collectLoop p need rest

/-- `VectorSearch.search_with_metadata_filter(query, metadata_filter,
top_k, threshold)`: search the whole corpus (`top_k = len(kb_data)`),
then post-filter by metadata, truncating at `top_k` matches. -/
def VectorSearch.search_with_metadata_filter (ix : SearchIndex) (query : String)
    (mf : List (String × String)) (top_k : Nat) (threshold : ℚ) : List SearchResult :=
  collectLoop (matchesFilter mf) top_k
    (VectorSearch.search ix query ix.kb_data.length threshold)

/-! ## Index store build path (`upsert_csv_to_vector_store`) -/

/-- Python strings for the store build path, where `str.strip()`
matters. -/
abbrev PyStr := List Char

/-- Whitespace as stripped by Python `str.strip()`. -/
def isSp (c : Char) : Bool := c.isWhitespace

/-- Python `str.strip()`: drop whitespace from both ends. -/
def pyStrip (l : PyStr) : PyStr :=
  ((l.dropWhile isSp).reverse.dropWhile isSp).reverse

/-- The persisted artifact triple, with the vectors themselves elided
(they are parallel to `texts` by construction and no claim inspects
their coordinates). -/
structure Artifact where
  texts : List PyStr
  metadata : List MetaD
deriving DecidableEq

/-- The validity filter of `_create_vector_index`: keep non-blank texts
stripped, pairing each with its positional metadata when the metadata
list is non-empty and covers the position, else with `{}`. -/
def collectValid (texts : List PyStr) (metadata : List MetaD) (i : Nat) :
    List (PyStr × MetaD) :=
  match texts with
  | [] => []
  | t :: rest =>
    if !t.isEmpty && !(pyStrip t).isEmpty then
      (pyStrip t,
        if !metadata.isEmpty && decide (i < metadata.length) then metadata.getD i []
        else []) :: collectValid rest metadata (i + 1)
    else collectValid rest metadata (i + 1)

/-- `VectorStore._create_vector_index(texts, index_name, metadata)`:
filter blanks, embed, and write the artifact; `none` models the
ValueError raised when no valid texts remain. -/
def create_vector_index (texts : List PyStr) (metadata : List MetaD) :
    Option Artifact :=
  let valid := collectValid texts metadata 0
  if valid.isEmpty then none
  else some { texts := valid.map Prod.fst, metadata := valid.map Prod.snd }

/-- The index directory as a name-keyed map of artifacts. -/
abbrev Disk : Type := String → Option Artifact

/-- `VectorStore.upsert_csv_to_vector_store`: load the existing artifact
if present, append the freshly extracted records, and rewrite the whole
artifact; `none` models the ValueError escaping from the rebuild. -/
def VectorStore.upsert_csv_to_vector_store (disk : Disk) (name : String)
    (new_texts : List PyStr) (new_metadata : List MetaD) : Option Disk :=
  let ex := match disk name with
    | some a => (a.texts, a.metadata)
    | none => ([], [])
  let combined_texts := ex.1 ++ new_texts
  let combined_metadata :=
    ex.2 ++ (if new_metadata.isEmpty then List.replicate new_texts.length [] else new_metadata)
  (create_vector_index combined_texts combined_metadata).map
    (fun a => fun n => if n = name then some a else disk n)

/-- Loading an index name from the store directory (the aligned
texts/metadata view that `load_index` materializes in memory). -/
def VectorStore.load (disk : Disk) (name : String) : Option Artifact :=
  disk name

/-! ## Theorems -/

/-- C5: for every tool schema and every arguments mapping that omits at
least one required parameter, `call` returns the structured
MissingParameters error naming exactly the missing parameters (a value,
not a thrown fault), and the underlying execute is never invoked: the
outcome is the same for any two execute functions. -/
theorem call_missing_parameters (schema : List (String × J))
    (exec exec2 : List (String × J) → Except String J)
    (args : List (String × J)) (n : String)
    (hmiss : missingParams schema args ≠ []) :
    callT schema exec args = Except.ok (mpErrorObj (missingParams schema args)) ∧
    callT schema exec2 args = callT schema exec args ∧
    (n ∈ missingParams schema args ↔
      ∃ d, (n, d) ∈ schema ∧ reqFlag d = true ∧ keyMem args n = false) := by
  have hne : (missingParams schema args).isEmpty = false := by
    cases h : missingParams schema args with
    | nil => exact absurd h hmiss
    | cons a l => rfl
  refine ⟨by simp [callT, hne], by simp [callT, hne], ?_⟩
  constructor
  · intro hn
    rcases List.mem_map.1 hn with ⟨nd, hnd, hfst⟩
    rcases List.mem_filter.1 hnd with ⟨hmem, hcond⟩
    have hcond2 : reqFlag nd.2 = true ∧ keyMem args nd.1 = false := by simpa using hcond
    rcases hcond2 with ⟨hreq, hkm⟩
    refine ⟨nd.2, ?_, hreq, ?_⟩
    · rw [← hfst]
      simpa using hmem
    · rw [← hfst]
      exact hkm
  · rintro ⟨d, hd, hreq, hkm⟩
    exact List.mem_map.2 ⟨(n, d), List.mem_filter.2 ⟨hd, by simp [hreq, hkm]⟩, rfl⟩

/-- Witness for C5 at the Retrieval schema with empty arguments. -/
theorem call_missing_parameters_witness :
    missingParams retrievalParams [] ≠ [] ∧
    (callT retrievalParams (fun _ => Except.ok J.null) [] =
        Except.ok (mpErrorObj (missingParams retrievalParams [])) ∧
      callT retrievalParams (fun _ => Except.error "boom") [] =
        callT retrievalParams (fun _ => Except.ok J.null) [] ∧
      ("query" ∈ missingParams retrievalParams [] ↔
        ∃ d, ("query", d) ∈ retrievalParams ∧ reqFlag d = true ∧ keyMem [] "query" = false)) :=
  ⟨by decide,
   call_missing_parameters retrievalParams (fun _ => Except.ok J.null)
     (fun _ => Except.error "boom") [] "query" (by decide)⟩

/-- C7: `delete_index` returns True whenever no present file fails to be
removed; in particular deleting a name none of whose three artifact
files exist succeeds, and False can only arise from an OSError while
removing an existing file. -/
theorem delete_index_succeeds (f1 f2 f3 : FileD)
    (h1 : f1 ≠ FileD.presentF false) (h2 : f2 ≠ FileD.presentF false)
    (h3 : f3 ≠ FileD.presentF false) :
    VectorStore.delete_index f1 f2 f3 = true := by
  rcases f1 with _ | (_ | _) <;> rcases f2 with _ | (_ | _) <;>
    rcases f3 with _ | (_ | _) <;> simp_all [VectorStore.delete_index, removeAll]

/-- Witness for C7: deleting a wholly nonexistent index returns True. -/
theorem delete_index_succeeds_witness :
    (FileD.absentF ≠ FileD.presentF false) ∧
    VectorStore.delete_index FileD.absentF FileD.absentF FileD.absentF = true :=
  ⟨by decide,
   delete_index_succeeds FileD.absentF FileD.absentF FileD.absentF
     (by decide) (by decide) (by decide)⟩

/-- C4 counterexample: an I/O failure while reading an existing artifact
is not surfaced distinctly from not-found — both calls return the very
same `(False, state)` — and a failure after the index file was read
leaves the in-memory state changed, not unchanged. -/
theorem load_index_io_indistinct_counterexample :
    (VectorSearch.load_index ⟨FRead.failRead, FRead.absent, FRead.absent⟩ "kb"
        ⟨none, none, none, [], []⟩ =
      VectorSearch.load_index ⟨FRead.absent, FRead.absent, FRead.absent⟩ "kb"
        ⟨none, none, none, [], []⟩) ∧
    (VectorSearch.load_index ⟨FRead.okRead 0, FRead.failRead, FRead.absent⟩ "kb"
        ⟨none, none, none, [], []⟩).2 ≠ ⟨none, none, none, [], []⟩ :=
  ⟨rfl, by decide⟩

/-- C4 (amended): `load_index` returns False (not an error) when the
artifact does not exist; when the artifact exists but reading it fails
the call also returns False — the same signal as not-found, not a
distinct error — and the in-memory state may be left partially updated
(the index, path and name fields are already assigned when a later read
fails). -/
theorem load_index_failure_modes (tf : FRead (List String)) (mf : FRead (List MetaD))
    (ih : Nat) (name : String) (st : VSState) :
    VectorSearch.load_index ⟨FRead.absent, tf, mf⟩ name st = (false, st) ∧
    VectorSearch.load_index ⟨FRead.failRead, tf, mf⟩ name st = (false, st) ∧
    VectorSearch.load_index ⟨FRead.okRead ih, FRead.failRead, mf⟩ name st =
      (false, {st with index := some ih, index_path := some name,
                       current_index_name := some name}) :=
  ⟨rfl, rfl, rfl⟩

/-- The dispatch loop appends exactly one tool-role entry per call (in
order) and processes every call. -/
theorem process_tool_calls_spec (reg : Registry) (calls : List TCall) (hist : List Msg) :
    (process_tool_calls reg calls hist).2 = hist ++ calls.map (entryFor reg) ∧
    (process_tool_calls reg calls hist).1.length = calls.length := by
  induction calls generalizing hist with
  | nil => simp [process_tool_calls]
  | cons c rest ihc =>
    cases h : lookupTool reg c.name with
    | some tf =>
      refine ⟨?_, ?_⟩
      · simp only [process_tool_calls, h]
        rw [(ihc (hist ++ [okEntry c (tf c.args)])).1]
        simp [entryFor, h]
      · simp only [process_tool_calls, h, List.length_cons]
        rw [(ihc (hist ++ [okEntry c (tf c.args)])).2]
    | none =>
      refine ⟨?_, ?_⟩
      · simp only [process_tool_calls, h]
        rw [(ihc (hist ++ [errEntry c])).1]
        simp [entryFor, h]
      · simp only [process_tool_calls, h, List.length_cons]
        rw [(ihc (hist ++ [errEntry c])).2]

/-- C6: a tool call whose name is absent from the registry makes
`process_tool_calls` append (at that call's position) a tool-role
transcript entry keyed to the call's id whose content carries the
ToolNotFound/status-error object; nothing is thrown (the function is
total) and every remaining call is still processed. -/
theorem process_unknown_tool (reg : Registry) (calls : List TCall) (hist : List Msg)
    (c : TCall) (_hc : c ∈ calls) (hname : lookupTool reg c.name = none) :
    (process_tool_calls reg calls hist).2 = hist ++ calls.map (entryFor reg) ∧
    (process_tool_calls reg calls hist).1.length = calls.length ∧
    entryFor reg c = ⟨"tool", c.id, c.name,
      J.obj [("error", J.s "ToolNotFound"),
             ("message", J.s ("Tool \x27" ++ c.name ++ "\x27 is not available")),
             ("status", J.s "error")]⟩ := by
  refine ⟨(process_tool_calls_spec reg calls hist).1,
          (process_tool_calls_spec reg calls hist).2, ?_⟩
  simp [entryFor, hname, errEntry, toolNotFoundObj]

/-- Witness for C6 at a one-call list and the empty registry. -/
theorem process_unknown_tool_witness :
    ((⟨"c1", "nope", []⟩ : TCall) ∈ ([⟨"c1", "nope", []⟩] : List TCall)) ∧
    lookupTool ([] : Registry) "nope" = none ∧
    entryFor ([] : Registry) ⟨"c1", "nope", []⟩ = ⟨"tool", "c1", "nope",
      J.obj [("error", J.s "ToolNotFound"),
             ("message", J.s ("Tool \x27" ++ "nope" ++ "\x27 is not available")),
             ("status", J.s "error")]⟩ :=
  ⟨List.mem_singleton.2 rfl, rfl,
   (process_unknown_tool ([] : Registry) [⟨"c1", "nope", []⟩] [] ⟨"c1", "nope", []⟩
     (List.mem_singleton.2 rfl) rfl).2.2⟩

/-- C8: the advertised declarations of both registered tools have every
per-property `required` marker removed while keeping the top-level
`required` array derived from the internal flags, yet `call` still
rejects arguments that omit an internally-required parameter — the
asymmetry between advertisement and enforcement. -/
theorem init_tools_required_asymmetry
    (exec1 exec2 : List (String × J) → Except String J) :
    init_tools.length = 2 ∧
    propsNoRequired (init_tools.getD 0 J.null) = true ∧
    propsNoRequired (init_tools.getD 1 J.null) = true ∧
    reqArrOf (init_tools.getD 0 J.null) = J.arr [J.s "query"] ∧
    reqArrOf (init_tools.getD 1 J.null) = J.arr [J.s "key word", J.s "categories"] ∧
    callT retrievalParams exec1 [] = Except.ok (mpErrorObj ["query"]) ∧
    callT matchParams exec2 [] = Except.ok (mpErrorObj ["key word", "categories"]) :=
  ⟨rfl, rfl, rfl, rfl, rfl, rfl, rfl⟩

/-- `objGetD` after replacing the first binding of a different key. -/
theorem objGetD_map_set (m : List (String × J)) (k k2 : String) (v d : J)
    (h : k2 ≠ k) :
    objGetD (m.map (fun kv => if kv.1 = k then (k, v) else kv)) k2 d =
      objGetD m k2 d := by
  induction m with
  | nil => rfl
  | cons kv rest ihm =>
    by_cases hk : kv.1 = k
    · simp [objGetD, hk, Ne.symm h, ihm]
    · by_cases hk2 : kv.1 = k2 <;> simp [objGetD, hk, hk2, h, ihm]

/-- `objGetD` after appending a binding for a different key. -/
theorem objGetD_append_one (m : List (String × J)) (k k2 : String) (v d : J)
    (h : k2 ≠ k) :
    objGetD (m ++ [(k, v)]) k2 d = objGetD m k2 d := by
  induction m with
  | nil => simp [objGetD, Ne.symm h]
  | cons kv rest ihm =>
    by_cases hk2 : kv.1 = k2 <;> simp [objGetD, hk2, ihm]

/-- Setting one dict key leaves every other key's lookup unchanged. -/
theorem objGetD_objSet_ne (m : List (String × J)) (k k2 : String) (v d : J)
    (h : k2 ≠ k) :
    objGetD (objSet m k v) k2 d = objGetD m k2 d := by
  unfold objSet
  by_cases hm : keyMem m k
  · simp only [hm, if_true]
    exact objGetD_map_set m k k2 v d h
  · simp only [hm, Bool.false_eq_true, if_false]
    exact objGetD_append_one m k k2 v d h

/-- C9: the output of `Retrieval._execute` is independent of the value
bound to the advertised optional parameter `reference_entries`: the body
reads the (differently spelled) key `reference_entry`, so two runs whose
arguments differ only in `reference_entries` produce identical results. -/
theorem execute_ignores_reference_entries (env : RetrievalEnv)
    (args : List (String × J)) (q : String) (v1 v2 : J)
    (_hq : objGetD args "query" (J.s "") = J.s q) (_hne : q ≠ "") :
    Retrieval.execute env (objSet args "reference_entries" v1) =
      Retrieval.execute env (objSet args "reference_entries" v2) := by
  unfold Retrieval.execute
  rw [objGetD_objSet_ne args "reference_entries" "query" v1 (J.s "") (by decide),
      objGetD_objSet_ne args "reference_entries" "reference_entry" v1 (J.i 3) (by decide),
      objGetD_objSet_ne args "reference_entries" "query" v2 (J.s "") (by decide),
      objGetD_objSet_ne args "reference_entries" "reference_entry" v2 (J.i 3) (by decide)]

/-- Witness for C9 at a concrete query and two different values of the
ignored parameter. -/
theorem execute_ignores_reference_entries_witness :
    (objGetD [("query", J.s "hi")] "query" (J.s "") = J.s "hi") ∧
    ("hi" : String) ≠ "" ∧
    Retrieval.execute ⟨[], fun _ _ => []⟩
        (objSet [("query", J.s "hi")] "reference_entries" (J.i 1)) =
      Retrieval.execute ⟨[], fun _ _ => []⟩
        (objSet [("query", J.s "hi")] "reference_entries" (J.i 2)) :=
  ⟨rfl, by decide,
   execute_ignores_reference_entries ⟨[], fun _ _ => []⟩ [("query", J.s "hi")]
     "hi" (J.i 1) (J.i 2) rfl (by decide)⟩

/-- C10: when the required `query` parameter is present but bound to the
empty string, `Retrieval.call` passes validation and returns the
`Query is required` error payload wrapped under a success status — not a
status-error result and not a thrown fault. -/
theorem retrieval_call_empty_query (env : RetrievalEnv)
    (args : List (String × J))
    (hp : keyMem args "query" = true)
    (hv : objGetD args "query" (J.s "") = J.s "") :
    Retrieval.call env args =
      Except.ok (J.obj [("result", J.obj [("error", J.s "Query is required")]),
                        ("status", J.s "success")]) := by
  unfold Retrieval.call callT
  have hmiss : missingParams retrievalParams args = [] := by
    simp [missingParams, retrievalParams, reqFlag, jTruthy, objGetD, hp]
  rw [hmiss]
  simp only [List.isEmpty_nil, if_true]
  unfold Retrieval.execute
  rw [hv]
  rfl

/-- Witness for C10 at the literal arguments dict binding query to the
empty string. -/
theorem retrieval_call_empty_query_witness :
    keyMem [("query", J.s "")] "query" = true ∧
    Retrieval.call ⟨[], fun _ _ => []⟩ [("query", J.s "")] =
      Except.ok (J.obj [("result", J.obj [("error", J.s "Query is required")]),
                        ("status", J.s "success")]) :=
  ⟨by decide,
   retrieval_call_empty_query ⟨[], fun _ _ => []⟩ [("query", J.s "")] (by decide) rfl⟩

/-- C1: every result returned by `search(query, top_k, threshold)` has
similarity at least the threshold, and at most `top_k` results are
returned. -/
theorem search_threshold_and_topk (ix : SearchIndex) (q : String) (k : Nat)
    (t : ℚ) (r : SearchResult) (_hk : 1 ≤ k)
    (hr : r ∈ VectorSearch.search ix q k t) :
    t ≤ r.similarity ∧ (VectorSearch.search ix q k t).length ≤ k := by
  constructor
  · unfold VectorSearch.search at hr
    rcases List.mem_map.1 hr with ⟨p, hp, hpr⟩
    have hcond : t ≤ p.1 ∧ p.2 < ix.kb_data.length := by
      simpa using (List.mem_filter.1 hp).2
    rw [← hpr]
    exact hcond.1
  · unfold VectorSearch.search
    rw [List.length_map]
    refine le_trans (List.length_filter_le _ _) ?_
    unfold faissTopK
    rw [List.length_take]
    exact min_le_left _ _

/-- Witness for C1 at a two-record index with integer scores. -/
theorem search_threshold_and_topk_witness :
    (1 ≤ 1) ∧
    ((⟨"a", 2, 0, some []⟩ : SearchResult) ∈
      VectorSearch.search ⟨["a", "b"], [[], []], fun _ => [2, 1]⟩ "q" 1 0) ∧
    ((0 : ℚ) ≤ (⟨"a", 2, 0, some []⟩ : SearchResult).similarity ∧
      (VectorSearch.search ⟨["a", "b"], [[], []], fun _ => [2, 1]⟩ "q" 1 0).length ≤ 1) :=
  ⟨by decide, by decide,
   search_threshold_and_topk ⟨["a", "b"], [[], []], fun _ => [2, 1]⟩ "q" 1 0
     ⟨"a", 2, 0, some []⟩ (by decide) (by decide)⟩

/-- The full sorted scan of the index for one query. -/
def sortedScan (scores : List ℚ) : List (ℚ × Nat) :=
  List.insertionSort pge (withIdx scores 0)

theorem faissTopK_eq_take (scores : List ℚ) (k : Nat) :
    faissTopK scores k = (sortedScan scores).take k := rfl

theorem withIdx_length (l : List ℚ) (i : Nat) : (withIdx l i).length = l.length := by
  induction l generalizing i with
  | nil => rfl
  | cons s rest ihl => simp [withIdx, ihl]

theorem withIdx_mem_lt (l : List ℚ) (i : Nat) (p : ℚ × Nat) (hp : p ∈ withIdx l i) :
    p.2 < i + l.length := by
  induction l generalizing i with
  | nil => cases hp
  | cons s rest ihl =>
    rcases List.mem_cons.1 hp with h | h
    · subst h; simp
    · have := ihl (i + 1) h
      simp only [List.length_cons]
      omega

theorem sortedScan_length (scores : List ℚ) :
    (sortedScan scores).length = scores.length := by
  unfold sortedScan
  rw [List.length_insertionSort, withIdx_length]

theorem sortedScan_pairwise (scores : List ℚ) :
    (sortedScan scores).Pairwise (fun a b => b.1 ≤ a.1) := by
  have hs : List.Sorted pge (sortedScan scores) := List.sorted_insertionSort pge _
  refine hs.imp (fun {a b} h => ?_)
  rcases h with h | ⟨e, _⟩
  · exact le_of_lt h
  · exact le_of_eq e.symm

theorem sortedScan_mem_lt (scores : List ℚ) (p : ℚ × Nat)
    (hp : p ∈ sortedScan scores) : p.2 < scores.length := by
  have hm : p ∈ withIdx scores 0 := (List.mem_insertionSort pge).1 hp
  simpa using withIdx_mem_lt scores 0 p hm

/-- On a list sorted by descending score, the threshold filter keeps
exactly a prefix. -/
theorem filter_score_eq_takeWhile (t : ℚ) (l : List (ℚ × Nat))
    (hl : l.Pairwise (fun a b => b.1 ≤ a.1)) :
    l.filter (fun p => decide (t ≤ p.1)) = l.takeWhile (fun p => decide (t ≤ p.1)) := by
  induction l with
  | nil => rfl
  | cons x xs ihl =>
    rcases List.pairwise_cons.1 hl with ⟨hx, hxs⟩
    by_cases hx1 : t ≤ x.1
    · simp [List.filter_cons, List.takeWhile_cons, hx1, ihl hxs]
    · have hnil : xs.filter (fun p => decide (t ≤ p.1)) = [] := by
        refine List.filter_eq_nil_iff.2 (fun a ha => ?_)
        have hle : a.1 ≤ x.1 := hx a ha
        simp only [decide_eq_true_eq]
        intro hta
        exact hx1 (le_trans hta hle)
      simp [List.filter_cons, List.takeWhile_cons, hx1, hnil]

theorem take_takeWhile_comm (p : (ℚ × Nat) → Bool) (k : Nat) (l : List (ℚ × Nat)) :
    (l.takeWhile p).take k = (l.take k).takeWhile p := by
  induction l generalizing k with
  | nil => simp
  | cons x xs ihl =>
    cases k with
    | zero => simp
    | succ m =>
      by_cases hx : p x
      · simp [List.takeWhile_cons, hx, List.take_succ_cons, ihl]
      · simp [List.takeWhile_cons, hx]

/-- The append-and-break loop of `search_with_metadata_filter` equals
filter-then-truncate whenever `top_k` is at least one. -/
theorem collectLoop_eq_take_filter (p : SearchResult → Bool) (k : Nat)
    (l : List SearchResult) (hk : 1 ≤ k) :
    collectLoop p k l = (l.filter p).take k := by
  induction l generalizing k with
  | nil => simp [collectLoop]
  | cons r rest ihl =>
    cases k with
    | zero => omega
    | succ m =>
      by_cases hp : p r
      · cases m with
        | zero => simp [collectLoop, hp, List.filter_cons]
        | succ m2 =>
          have h1 : ¬ (m2 + 1 + 1 ≤ 1) := by omega
          have h2 : 1 ≤ m2 + 1 := by omega
          simp [collectLoop, hp, h1, List.filter_cons, ihl (m2 + 1) h2]
      · simp [collectLoop, hp, List.filter_cons, ihl (m + 1) hk]

/-- When the metadata list covers every text position, every search
result carries a metadata dict, so the empty filter accepts it. -/
theorem search_results_have_metadata (ix : SearchIndex) (q : String) (k : Nat)
    (t : ℚ) (hmeta : ix.kb_data.length ≤ ix.metadata.length) (r : SearchResult)
    (hr : r ∈ VectorSearch.search ix q k t) : matchesFilter [] r = true := by
  unfold VectorSearch.search at hr
  rcases List.mem_map.1 hr with ⟨p, hp, hpr⟩
  have hcond : t ≤ p.1 ∧ p.2 < ix.kb_data.length := by
    simpa using (List.mem_filter.1 hp).2
  have hlt : p.2 < ix.metadata.length := lt_of_lt_of_le hcond.2 hmeta
  rw [← hpr]
  simp [matchesFilter, mkResult, hlt]

/-- For a metadata-complete index and `top_k` at least one, the empty
metadata filter returns exactly the unfiltered search truncated to
`top_k`. -/
theorem swmf_empty_eq (ix : SearchIndex) (q : String) (k : Nat) (t : ℚ)
    (hlen : (ix.score q).length = ix.kb_data.length)
    (hmeta : ix.kb_data.length ≤ ix.metadata.length)
    (hk : 1 ≤ k) :
    VectorSearch.search_with_metadata_filter ix q [] k t =
      VectorSearch.search ix q k t := by
  have hfull : faissTopK (ix.score q) ix.kb_data.length = sortedScan (ix.score q) := by
    rw [faissTopK_eq_take, ← hlen, ← sortedScan_length (ix.score q)]
    exact List.take_length _
  unfold VectorSearch.search_with_metadata_filter
  rw [collectLoop_eq_take_filter _ k _ hk,
      List.filter_eq_self.2
        (fun r hr => search_results_have_metadata ix q ix.kb_data.length t hmeta r hr)]
  unfold VectorSearch.search
  rw [hfull, ← List.map_take, faissTopK_eq_take]
  congr 1
  have hpw := sortedScan_pairwise (ix.score q)
  have hg : ∀ p ∈ sortedScan (ix.score q),
      (decide (t ≤ p.1) && decide (p.2 < ix.kb_data.length)) = decide (t ≤ p.1) := by
    intro p hp
    have hplt : p.2 < ix.kb_data.length := by
      have := sortedScan_mem_lt (ix.score q) p hp
      omega
    simp [hplt]
  rw [List.filter_congr hg, filter_score_eq_takeWhile t _ hpw, take_takeWhile_comm,
      ← filter_score_eq_takeWhile t _ (hpw.sublist (List.take_sublist k _))]
  exact (List.filter_congr
    (fun p hp => hg p (List.take_subset k _ hp))).symm

/-- A result collected by the filter loop passed the filter test (for
every `top_k`, including the `top_k = 0` break-after-append edge). -/
theorem collectLoop_mem_pred (p : SearchResult → Bool) (need : Nat)
    (l : List SearchResult) (r : SearchResult) (hr : r ∈ collectLoop p need l) :
    p r = true := by
  induction l generalizing need with
  | nil => cases hr
  | cons x rest ihl =>
    unfold collectLoop at hr
    by_cases hp : p x = true
    · rw [if_pos hp] at hr
      by_cases hn : need ≤ 1
      · rw [if_pos hn] at hr
        have := List.mem_singleton.1 hr
        subst this
        exact hp
      · rw [if_neg hn] at hr
        rcases List.mem_cons.1 hr with h | h
        · subst h
          exact hp
        · exact ihl (need - 1) h
    · rw [if_neg hp] at hr
      exact ihl need hr

/-- C2 (amended): `search_with_metadata_filter` returns only records
whose metadata dict binds every filter key to the filter value — a
record lacking a filter key, or lacking metadata altogether, is
excluded, for every filter and every `top_k`; and for the empty filter
it returns exactly the unfiltered search truncated to `top_k`, provided
`top_k >= 1` and every record of the loaded index carries metadata
(a record without metadata is excluded even by the empty filter, which
is what the counterexample exhibits). -/
theorem swmf_superset_and_empty_filter (ix : SearchIndex) (q : String)
    (mf : List (String × String)) (k : Nat) (t : ℚ) :
    (∀ r ∈ VectorSearch.search_with_metadata_filter ix q mf k t,
       ∃ m, r.metadata = some m ∧ ∀ kv ∈ mf, assocGet m kv.1 = some kv.2) ∧
    ((ix.score q).length = ix.kb_data.length →
      ix.kb_data.length ≤ ix.metadata.length → 1 ≤ k → mf = [] →
      VectorSearch.search_with_metadata_filter ix q mf k t =
        VectorSearch.search ix q k t) := by
  constructor
  · intro r hr
    have hrf : matchesFilter mf r = true := collectLoop_mem_pred _ k _ r hr
    cases hmr : r.metadata with
    | none => simp [matchesFilter, hmr] at hrf
    | some m =>
      refine ⟨m, rfl, fun kv hkv => ?_⟩
      have hall : mf.all (fun kv => decide (assocGet m kv.1 = some kv.2)) = true := by
        simpa [matchesFilter, hmr] using hrf
      exact of_decide_eq_true (List.all_eq_true.1 hall kv hkv)
  · intro hlen hmeta hk hmf
    subst hmf
    exact swmf_empty_eq ix q k t hlen hmeta hk

/-- Witness for C2: both clauses discharged at a metadata-complete
two-record index (the exclusion clause at an actual returned result). -/
theorem swmf_superset_and_empty_filter_witness :
    ((⟨"a", 2, 0, some []⟩ : SearchResult) ∈
      VectorSearch.search_with_metadata_filter
        ⟨["a", "b"], [[], []], fun _ => [2, 1]⟩ "q" [] 1 0) ∧
    (∃ m, (⟨"a", 2, 0, some []⟩ : SearchResult).metadata = some m ∧
      ∀ kv ∈ ([] : List (String × String)), assocGet m kv.1 = some kv.2) ∧
    VectorSearch.search_with_metadata_filter
        ⟨["a", "b"], [[], []], fun _ => [2, 1]⟩ "q" [] 1 0 =
      VectorSearch.search ⟨["a", "b"], [[], []], fun _ => [2, 1]⟩ "q" 1 0 :=
  ⟨by decide,
   (swmf_superset_and_empty_filter ⟨["a", "b"], [[], []], fun _ => [2, 1]⟩
     "q" [] 1 0).1 ⟨"a", 2, 0, some []⟩ (by decide),
   (swmf_superset_and_empty_filter ⟨["a", "b"], [[], []], fun _ => [2, 1]⟩
     "q" [] 1 0).2 rfl (by decide) (by decide) rfl⟩

/-- C2 counterexample: on a loaded index whose single record has no
metadata (the metadata file was absent), the empty filter returns
nothing while the unfiltered search truncated to `top_k` returns the
record — the two are not identical, refuting the claim as stated. -/
theorem swmf_empty_filter_counterexample :
    VectorSearch.search_with_metadata_filter ⟨["a"], [], fun _ => [2]⟩ "q" [] 1 0 ≠
      VectorSearch.search ⟨["a"], [], fun _ => [2]⟩ "q" 1 0 := by decide

theorem dropWhile_head_not (p : Char → Bool) (l : List Char) (x : Char)
    (hx : (l.dropWhile p).head? = some x) : p x = false := by
  induction l with
  | nil => cases hx
  | cons a rest ihl =>
    by_cases pa : p a
    · rw [List.dropWhile_cons, if_pos pa] at hx
      exact ihl hx
    · rw [List.dropWhile_cons, if_neg pa] at hx
      have hax : a = x := by simpa using hx
      subst hax
      cases h2 : p a with
      | false => rfl
      | true => exact absurd h2 pa

theorem dropWhile_of_head_false (p : Char → Bool) (l : List Char) (x : Char)
    (hx : l.head? = some x) (hp : p x = false) : l.dropWhile p = l := by
  cases l with
  | nil => cases hx
  | cons a rest =>
    have hax : a = x := by simpa using hx
    subst hax
    rw [List.dropWhile_cons, if_neg (by simp [hp])]

theorem dropWhile_idem (p : Char → Bool) (l : List Char) :
    (l.dropWhile p).dropWhile p = l.dropWhile p := by
  cases hh : (l.dropWhile p).head? with
  | none => rw [List.head?_eq_none_iff.1 hh]; rfl
  | some x => exact dropWhile_of_head_false p _ x hh (dropWhile_head_not p l x hh)

theorem dropWhile_getLast (p : Char → Bool) (l : List Char)
    (h : l.dropWhile p ≠ []) : (l.dropWhile p).getLast? = l.getLast? := by
  conv_rhs => rw [← List.takeWhile_append_dropWhile (p := p) (l := l)]
  exact (List.getLast?_append_of_ne_nil _ h).symm

/-- A list whose two ends are non-whitespace is unchanged by `strip`. -/
theorem strip_no_space_ends (c : List Char)
    (hh : ∀ x, c.head? = some x → isSp x = false)
    (hl : ∀ x, c.getLast? = some x → isSp x = false) :
    pyStrip c = c := by
  unfold pyStrip
  have h1 : c.dropWhile isSp = c := by
    cases hc : c.head? with
    | none => rw [List.head?_eq_none_iff.1 hc]; rfl
    | some x => exact dropWhile_of_head_false isSp c x hc (hh x hc)
  rw [h1]
  have h2 : c.reverse.dropWhile isSp = c.reverse := by
    cases hc : c.reverse.head? with
    | none => rw [List.head?_eq_none_iff.1 hc]; rfl
    | some x =>
      refine dropWhile_of_head_false isSp c.reverse x hc (hl x ?_)
      rw [← List.head?_reverse]
      exact hc
  rw [h2, List.reverse_reverse]

/-- Python `strip` is idempotent: re-stripping a stripped string is the
identity (the ends of a stripped string are non-whitespace). -/
theorem pyStrip_idem (l : PyStr) : pyStrip (pyStrip l) = pyStrip l := by
  apply strip_no_space_ends
  · intro x hx
    unfold pyStrip at hx
    rw [List.head?_reverse] at hx
    have hbne : (l.dropWhile isSp).reverse.dropWhile isSp ≠ [] := by
      intro h
      rw [h] at hx
      cases hx
    rw [dropWhile_getLast isSp _ hbne, List.getLast?_reverse] at hx
    exact dropWhile_head_not isSp l x hx
  · intro x hx
    unfold pyStrip at hx
    rw [List.getLast?_reverse] at hx
    exact dropWhile_head_not isSp _ x hx

/-- The value of the validity filter when every text passes it: the
stripped texts paired with the positionally indexed metadata. -/
def stripZip (texts : List PyStr) (meta : List MetaD) (i : Nat) :
    List (PyStr × MetaD) :=
  match texts with
  | [] => []
  | t :: rest => (pyStrip t, meta.getD i []) :: stripZip rest meta (i + 1)

theorem collectValid_eq_stripZip (texts : List PyStr) (meta : List MetaD) (i : Nat)
    (hv : ∀ t ∈ texts, t ≠ [] ∧ pyStrip t ≠ [])
    (hm : meta ≠ []) (hlen : i + texts.length ≤ meta.length) :
    collectValid texts meta i = stripZip texts meta i := by
  induction texts generalizing i with
  | nil => rfl
  | cons t rest ihl =>
    have hvt := hv t (List.mem_cons_self t rest)
    have ht1 : t.isEmpty = false := by
      cases hc : t with
      | nil => exact absurd hc hvt.1
      | cons c cs => rfl
    have ht2 : (pyStrip t).isEmpty = false := by
      cases hc : pyStrip t with
      | nil => exact absurd hc hvt.2
      | cons c cs => rfl
    have hmE : meta.isEmpty = false := by
      cases hc : meta with
      | nil => exact absurd hc hm
      | cons c cs => rfl
    have hi : i < meta.length := by
      simp only [List.length_cons] at hlen
      omega
    unfold collectValid
    rw [if_pos (by simp [ht1, ht2]), if_pos (by simp [hmE, hi])]
    rw [ihl (i + 1) (fun u hu => hv u (List.mem_cons_of_mem t hu))
        (by simp only [List.length_cons] at hlen; omega)]
    rfl

theorem stripZip_map_fst (texts : List PyStr) (meta : List MetaD) (i : Nat) :
    (stripZip texts meta i).map Prod.fst = texts.map pyStrip := by
  induction texts generalizing i with
  | nil => rfl
  | cons t rest ihl => simp [stripZip, ihl]

theorem stripZip_map_snd (texts : List PyStr) (meta : List MetaD) (i : Nat)
    (hlen : i + texts.length ≤ meta.length) :
    (stripZip texts meta i).map Prod.snd = (meta.drop i).take texts.length := by
  induction texts generalizing i with
  | nil => simp [stripZip]
  | cons t rest ihl =>
    simp only [List.length_cons] at hlen
    have hi : i < meta.length := by omega
    simp only [stripZip, List.map_cons, List.length_cons]
    rw [List.drop_eq_getElem_cons hi, List.take_succ_cons,
        ihl (i + 1) (by omega), List.getD_eq_getElem meta [] hi]

/-- `_create_vector_index` on inputs where every text is non-blank and
the metadata list is aligned: no record is dropped, texts are stripped,
metadata is kept positionally. -/
theorem create_vector_index_all_valid (texts : List PyStr) (meta : List MetaD)
    (hv : ∀ t ∈ texts, t ≠ [] ∧ pyStrip t ≠ [])
    (hm : meta ≠ []) (hne : texts ≠ []) (hlen2 : meta.length = texts.length) :
    create_vector_index texts meta = some ⟨texts.map pyStrip, meta⟩ := by
  unfold create_vector_index
  rw [collectValid_eq_stripZip texts meta 0 hv hm (by omega)]
  have hnil : (stripZip texts meta 0).isEmpty = false := by
    cases texts with
    | nil => exact absurd rfl hne
    | cons a l => rfl
  simp only [hnil, Bool.false_eq_true, if_false]
  rw [stripZip_map_fst, stripZip_map_snd texts meta 0 (by omega)]
  rw [List.drop_zero, List.take_of_length_le (le_of_eq hlen2)]

/-- One upsert into a fresh index name. -/
theorem upsert_fresh (disk : Disk) (name : String)
    (h0 : disk name = none) (nt : List PyStr) (nm : List MetaD)
    (hnmne : nm ≠ [])
    (hv : ∀ t ∈ nt, t ≠ [] ∧ pyStrip t ≠ [])
    (hne : nt ≠ []) (hlen2 : nm.length = nt.length) :
    VectorStore.upsert_csv_to_vector_store disk name nt nm =
      some (fun n => if n = name then some ⟨nt.map pyStrip, nm⟩ else disk n) := by
  have hnmE : nm.isEmpty = false := by
    cases hc : nm with
    | nil => exact absurd hc hnmne
    | cons c cs => rfl
  unfold VectorStore.upsert_csv_to_vector_store
  rw [h0]
  show (create_vector_index ([] ++ nt)
      ([] ++ (if nm.isEmpty then List.replicate nt.length [] else nm))).map
      (fun a => fun n => if n = name then some a else disk n) = _
  rw [hnmE]
  simp only [Bool.false_eq_true, if_false, List.nil_append]
  rw [create_vector_index_all_valid nt nm hv hnmne hne hlen2]
  rfl

/-- One upsert into an existing artifact: full read-modify-write of the
concatenation. -/
theorem upsert_step (disk : Disk) (name : String) (ex : Artifact)
    (hx : disk name = some ex) (nt : List PyStr) (nm : List MetaD)
    (hnmne : nm ≠ [])
    (hv : ∀ t ∈ ex.texts ++ nt, t ≠ [] ∧ pyStrip t ≠ [])
    (hne : ex.texts ++ nt ≠ [])
    (hlen2 : (ex.metadata ++ nm).length = (ex.texts ++ nt).length) :
    VectorStore.upsert_csv_to_vector_store disk name nt nm =
      some (fun n => if n = name then
        some ⟨(ex.texts ++ nt).map pyStrip, ex.metadata ++ nm⟩ else disk n) := by
  have hnmE : nm.isEmpty = false := by
    cases hc : nm with
    | nil => exact absurd hc hnmne
    | cons c cs => rfl
  have hm2 : ex.metadata ++ nm ≠ [] := by
    intro h
    exact hnmne (List.append_eq_nil.1 h).2
  unfold VectorStore.upsert_csv_to_vector_store
  rw [hx]
  show (create_vector_index (ex.texts ++ nt)
      (ex.metadata ++ (if nm.isEmpty then List.replicate nt.length [] else nm))).map
      (fun a => fun n => if n = name then some a else disk n) = _
  rw [hnmE]
  simp only [Bool.false_eq_true, if_false]
  rw [create_vector_index_all_valid _ _ hv hm2 hne hlen2]
  rfl

/-- C3: two successive upserts of non-blank, disjoint record sets A then
B into the same fresh index name leave an artifact with exactly
`len(A) + len(B)` records, texts and metadata positionally aligned, in
A-then-B order (texts are stored stripped). -/
theorem upsert_twice_aligned (disk : Disk) (name : String)
    (At Bt : List PyStr) (Am Bm : List MetaD)
    (h0 : disk name = none)
    (hAlen : Am.length = At.length) (hBlen : Bm.length = Bt.length)
    (hAv : ∀ t ∈ At, t ≠ [] ∧ pyStrip t ≠ [])
    (hBv : ∀ t ∈ Bt, t ≠ [] ∧ pyStrip t ≠ [])
    (hAne : At ≠ []) (hBne : Bt ≠ [])
    (_hdisj : ∀ t ∈ At, t ∉ Bt) :
    ∃ d1 d2 : Disk,
      VectorStore.upsert_csv_to_vector_store disk name At Am = some d1 ∧
      VectorStore.upsert_csv_to_vector_store d1 name Bt Bm = some d2 ∧
      VectorStore.load d2 name =
        some ⟨At.map pyStrip ++ Bt.map pyStrip, Am ++ Bm⟩ ∧
      (At.map pyStrip ++ Bt.map pyStrip).length = At.length + Bt.length ∧
      (Am ++ Bm).length = At.length + Bt.length := by
  have hAmne : Am ≠ [] := by
    intro h
    have h1 : Am.length = 0 := by rw [h]; rfl
    exact hAne (List.eq_nil_of_length_eq_zero (by omega))
  have hBmne : Bm ≠ [] := by
    intro h
    have h1 : Bm.length = 0 := by rw [h]; rfl
    exact hBne (List.eq_nil_of_length_eq_zero (by omega))
  have h1 := upsert_fresh disk name h0 At Am hAmne hAv hAne hAlen
  have hd1 : (fun n => if n = name then some (⟨At.map pyStrip, Am⟩ : Artifact) else disk n)
      name = some (⟨At.map pyStrip, Am⟩ : Artifact) := by simp
  have hv2 : ∀ t ∈ (⟨At.map pyStrip, Am⟩ : Artifact).texts ++ Bt,
      t ≠ [] ∧ pyStrip t ≠ [] := by
    intro t ht
    rcases List.mem_append.1 ht with h | h
    · rcases List.mem_map.1 h with ⟨u, hu, rfl⟩
      exact ⟨(hAv u hu).2, by rw [pyStrip_idem]; exact (hAv u hu).2⟩
    · exact hBv t h
  have hne2 : (⟨At.map pyStrip, Am⟩ : Artifact).texts ++ Bt ≠ [] := by
    intro h
    exact hBne (List.append_eq_nil.1 h).2
  have hlen2 : ((⟨At.map pyStrip, Am⟩ : Artifact).metadata ++ Bm).length =
      ((⟨At.map pyStrip, Am⟩ : Artifact).texts ++ Bt).length := by
    simp [hAlen, hBlen]
  have h2 := upsert_step
    (fun n => if n = name then some (⟨At.map pyStrip, Am⟩ : Artifact) else disk n)
    name ⟨At.map pyStrip, Am⟩ hd1 Bt Bm hBmne hv2 hne2 hlen2
  have htexts : ((⟨At.map pyStrip, Am⟩ : Artifact).texts ++ Bt).map pyStrip =
      At.map pyStrip ++ Bt.map pyStrip := by
    rw [List.map_append, List.map_map]
    congr 1
    exact List.map_congr_left (fun a _ => pyStrip_idem a)
  rw [htexts] at h2
  refine ⟨_, _, h1, h2, by simp [VectorStore.load], by simp, by simp [hAlen, hBlen]⟩

/-- Witness for C3 at two singleton record sets. -/
theorem upsert_twice_aligned_witness :
    ((fun _ => none : Disk) "kb" = none) ∧
    (∀ t ∈ ([[ 'a' ]] : List PyStr), t ≠ [] ∧ pyStrip t ≠ []) ∧
    (∃ d1 d2 : Disk,
      VectorStore.upsert_csv_to_vector_store (fun _ => none) "kb"
          ([[ 'a' ]] : List PyStr) [[]] = some d1 ∧
      VectorStore.upsert_csv_to_vector_store d1 "kb"
          ([[ 'b' ]] : List PyStr) [[]] = some d2 ∧
      VectorStore.load d2 "kb" =
        some ⟨([[ 'a' ]] : List PyStr).map pyStrip ++ ([[ 'b' ]] : List PyStr).map pyStrip,
              [[]] ++ [[]]⟩ ∧
      (([[ 'a' ]] : List PyStr).map pyStrip ++ ([[ 'b' ]] : List PyStr).map pyStrip).length =
        ([[ 'a' ]] : List PyStr).length + ([[ 'b' ]] : List PyStr).length ∧
      (([[]] ++ [[]]) : List MetaD).length =
        ([[ 'a' ]] : List PyStr).length + ([[ 'b' ]] : List PyStr).length) :=
  ⟨rfl, by decide,
   upsert_twice_aligned (fun _ => none) "kb" [[ 'a' ]] [[ 'b' ]] [[]] [[]]
     rfl rfl rfl (by decide) (by decide) (by decide) (by decide) (by decide)⟩
